import Mathlib

/-!
Verification of the scratch-assay analysis program
(`src/scratch_analysis.py` and `src/app.py`) against its design
specification.  The Python code is shallowly embedded: numpy arrays
become lists of lists over exact numbers (`ℕ` for uint8/uint16
samples, `ℚ` for float samples, `ℝ` for local-entropy values),
raised exceptions become `Except String`, and the external image
decoders (PIL, nd2reader, zipfile, tifffile) are modelled by each
input's recorded decode outcome, since their behaviour is
environment data for this program.
-/

namespace ScratchAssay

/-- Images as rectangular grids, row major, mirroring 2-D numpy arrays. -/
abbrev Mat (α : Type) := List (List α)

def matH {α : Type} (m : Mat α) : ℕ := m.length

def matW {α : Type} (m : Mat α) : ℕ := (m.headD []).length

def cellsOf {α : Type} (m : Mat α) : List α := m.flatten

def matMap {α β : Type} (f : α → β) (m : Mat α) : Mat β := m.map (fun r => r.map f)

/-! ### File objects and type detection (`scratch_analysis.detect_file_type`) -/

/-- A Streamlit UploadedFile / BytesIO object: a named byte stream with a
read position.  `hasRead` models `hasattr(file, "read")`. -/
structure ByteFile where
  name : String
  hasRead : Bool
  content : List ℕ
  pos : ℕ

/-- `file.read(n)`: returns up to `n` bytes from the current position and
advances the position by the number of bytes actually read. -/
def readBytes (f : ByteFile) (n : ℕ) : List ℕ × ByteFile :=
  let chunk := (f.content.drop f.pos).take n
  (chunk, { f with pos := f.pos + chunk.length })

/-- `file.seek(p)`. -/
def seekTo (f : ByteFile) (p : ℕ) : ByteFile := { f with pos := p }

/-- Index of the last dot in a character list, `none` if there is no dot. -/
def lastDotIdx (cs : List Char) : Option ℕ :=
  (List.range cs.length).foldl
    (fun acc i => if cs.get? i = some ('.') then some i else acc) none

/-- Index of the first character that is not a dot. -/
def firstNonDotIdx (cs : List Char) : Option ℕ :=
  (List.range cs.length).foldr
    (fun i acc => if cs.get? i ≠ some ('.') then some i else acc) none

/-- `os.path.splitext(name)[1].lower()` for plain (separator-free) names:
the extension starts at the last dot, except that a name consisting of
leading dots only (e.g. `".bashrc"`) has no extension. -/
def splitExtLower (name : String) : String :=
  let cs := name.toList
  match lastDotIdx cs, firstNonDotIdx cs with
  | some d, some f => if f < d then String.mk ((cs.drop d).map Char.toLower) else ""
  | _, _ => ""

/-- The extensions accepted by `detect_file_type` (scratch_analysis.py line 26). -/
def knownExts : List String :=
  [".jpg", ".jpeg", ".png", ".jp2", ".nd2", ".zip"]

/-- `imghdr.what(None, h=header)` of the Python standard library, for the
two outcomes this program consumes: the JPEG test (`h[6:10]` equal to
`JFIF` or `Exif`) and the PNG test (the 8-byte PNG signature).  All other
imghdr answers are observationally `none` here because `detect_file_type`
maps them to `None` anyway. -/
def imghdrWhat (h : List ℕ) : Option String :=
  if (h.drop 6).take 4 = [74, 70, 73, 70] ∨ (h.drop 6).take 4 = [69, 120, 105, 102] then
    some ("jpeg")
  else if h.take 8 = [137, 80, 78, 71, 13, 10, 26, 10] then
    some ("png")
  else none

/-- `detect_file_type` (scratch_analysis.py lines 17-44).  Returns the
detected extension (or `none`) together with the file object as the call
leaves it. -/
def detect_file_type (f : ByteFile) : Option String × ByteFile :=
  let ext := splitExtLower f.name
  if ext ∈ knownExts then (some ext, f)
  else if f.hasRead then
    let p := f.pos
    let r := readBytes f 32
    let f2 := seekTo r.2 p
    match imghdrWhat r.1 with
    | some t =>
        if t = "jpeg" then (some (".jpg"), f2)
        else if t = "png" then (some (".png"), f2)
        else (none, f2)
    | none => (none, f2)
  else (none, f)

/-! ### Frames and the channel normalizer -/

/-- A single-channel numpy array together with its dtype: `u8`/`u16` carry
integer samples, `fl` carries floating-point samples (modelled exactly
as rationals). -/
inductive Gray where
  | u8 (m : Mat ℕ)
  | u16 (m : Mat ℕ)
  | fl (m : Mat ℚ)

/-- A raw decoded frame: single-channel, or 3-channel color (uint8). -/
inductive PyImg where
  | gray (g : Gray)
  | rgb (m : Mat (ℕ × ℕ × ℕ))

def grayMatH : Gray → ℕ
  | .u8 m => matH m
  | .u16 m => matH m
  | .fl m => matH m

def grayMatW : Gray → ℕ
  | .u8 m => matW m
  | .u16 m => matW m
  | .fl m => matW m

/-- `img.shape[0]` of the frame as decoded (scratch_analysis.py line 99). -/
def imgH : PyImg → ℕ
  | .gray g => grayMatH g
  | .rgb m => matH m

def imgW : PyImg → ℕ
  | .gray g => grayMatW g
  | .rgb m => matW m

/-- `skimage.color.rgb2gray` on one uint8 pixel: the input is scaled to
[0,1] by dividing by 255 and the luminance weights are 0.2125, 0.7154,
0.0721, producing a float sample. -/
def rgb2grayVal (p : ℕ × ℕ × ℕ) : ℚ :=
  (2125 * p.1 + 7154 * p.2.1 + 721 * p.2.2) / (10000 * 255)

/-- Lines 100-101: a 3-channel frame is converted by `rgb2gray` to a
float grayscale frame; a single-channel frame passes through. -/
def toGray : PyImg → Gray
  | .gray g => g
  | .rgb m => .fl (matMap rgb2grayVal m)

/-- Truncation toward zero, as a C cast of a float to an integer does. -/
def pyTrunc (q : ℚ) : ℤ := if 0 ≤ q then ⌊q⌋ else -⌊-q⌋

/-- `.astype(np.uint8)` on one float sample: truncate toward zero, then
wrap into the 8-bit range. -/
def castU8 (q : ℚ) : ℕ := ((pyTrunc q).emod 256).toNat

/-- Line 102 of scratch_analysis.py:
`img_uint8 = (img * 255).astype(np.uint8) if img.dtype != np.uint8 else img`.
Every non-uint8 frame — float or 16-bit integer alike — is multiplied by
255 and then cast to uint8 (for uint16 the product itself wraps mod 2^16
first, being computed in uint16 arithmetic). -/
def normalizeSA : Gray → Mat ℕ
  | .u8 m => m
  | .u16 m => matMap (fun v => v * 255 % 65536 % 256) m
  | .fl m => matMap (fun q => castU8 (q * 255)) m

/-- Line 81/100 of app.py: `frame.astype(np.uint8)` — every frame is cast
directly to uint8, with no rescaling, whatever its dtype. -/
def normalizeApp : Gray → Mat ℕ
  | .u8 m => m
  | .u16 m => matMap (fun v => v % 256) m
  | .fl m => matMap castU8 m

/-- Modelled from the spec (§4.2): the Channel Normalizer rescale rule as
the specification states it — floating-point samples in [0,1] are
multiplied by 255 and truncated to integer; any other non-8-bit sample
type is cast directly to the 8-bit range, without the factor 255.  This
definition follows the spec's words and exists only to be compared with
the two rescale rules found in the source. -/
def specNormalize : Gray → Mat ℕ
  | .u8 m => m
  | .u16 m => matMap (fun v => v % 256) m
  | .fl m => matMap (fun q => castU8 (q * 255)) m

/-! ### The texture segmenter -/

/-- The offsets of `skimage.morphology.disk(5)`: all integer offsets with
`dx² + dy² ≤ 25`. -/
def diskOffsets : List (ℤ × ℤ) :=
  (List.range 11).flatMap (fun i =>
    (List.range 11).filterMap (fun j =>
      let dx : ℤ := (i : ℤ) - 5
      let dy : ℤ := (j : ℤ) - 5
      if dx * dx + dy * dy ≤ 25 then some (dx, dy) else none))

/-- In-bounds pixel lookup. -/
def getCell (m : Mat ℕ) (r c : ℤ) : Option ℕ :=
  if r < 0 ∨ c < 0 then none
  else (m.get? r.toNat).bind (fun row => row.get? c.toNat)

/-- The sample values inside the disk-shaped radius-5 neighborhood of
pixel `(i, j)`, truncated at the image border (the spec, §4.3 Step A,
fixes the neighborhood shape and allows any uniform edge convention). -/
def neighborhood (m : Mat ℕ) (i j : ℕ) : List ℕ :=
  diskOffsets.filterMap (fun d => getCell m ((i : ℤ) + d.1) ((j : ℤ) + d.2))

/-- The histogram of a value list: the count of each distinct value. -/
def histCounts (vals : List ℕ) : List ℕ :=
  vals.dedup.map (fun v => vals.count v)

/-- One summand of the Shannon entropy: `p·log₂ p` for the relative
frequency `p = c / n` of one histogram bin. -/
noncomputable def entTerm (n c : ℕ) : ℝ :=
  ((c : ℝ) / (n : ℝ)) * Real.logb 2 ((c : ℝ) / (n : ℝ))

/-- Modelled from the spec (§4.3 Step A): `skimage.filters.rank.entropy`
is scikit-image library code not present under `src/`; per the spec each
pixel receives the Shannon entropy (in bits) of the sample-value
histogram of its disk-radius-5 neighborhood. -/
noncomputable def shannonEntropy (vals : List ℕ) : ℝ :=
  -(((histCounts vals).map (entTerm vals.length)).sum)

/-- Line 103: `ent_img = entropy(img_uint8, disk(5))`. -/
noncomputable def entropyMap (m : Mat ℕ) : Mat ℝ :=
  (List.range (matH m)).map (fun i =>
    (List.range (matW m)).map (fun j => shannonEntropy (neighborhood m i j)))

/-- The error carried by a degenerate frame, as named by the spec (§4.3). -/
def degMsg : String := "DegenerateFrame"

def argmaxBy {α β : Type} [LinearOrder β] (f : α → β) (x : α) (xs : List α) : α :=
  xs.foldl (fun best a => if f best < f a then a else best) x

/-- Mean of a list of field elements (0 for the empty list, whose weight
is 0 anyway). -/
def listMean {α : Type} [Field α] (l : List α) : α := l.sum / (l.length : α)

/-- Between-class variance of the split of `vals` at candidate threshold
`t` (the class below `t` against the class at or above it). -/
def betweenClassVar {α : Type} [LinearOrderedField α] (vals : List α) (t : α) : α :=
  let lo := vals.filter (fun x => decide (x < t))
  let hi := vals.filter (fun x => decide (t ≤ x))
  let n : α := (vals.length : α)
  ((lo.length : α) / n) * ((hi.length : α) / n) * (listMean lo - listMean hi) ^ 2

/-- Modelled from the spec (§4.3 Step B and the degenerate case):
`skimage.filters.threshold_otsu` is scikit-image library code not present
under `src/`; per the spec it selects the global threshold maximizing the
between-class variance of the entropy-value histogram, and a constant
entropy map has no meaningful threshold and must fail with
`DegenerateFrame`. -/
noncomputable def otsuThreshold {α : Type} [LinearOrderedField α]
    (vals : List α) : Except String α :=
  match vals.dedup with
  | [] => .error degMsg
  | [_] => .error degMsg
  | c :: cs => .ok (argmaxBy (betweenClassVar vals) c cs)

/-- Line 105: `scratch_mask = ent_img < thresh` — the classification used
by `scratch_analysis.process_image_file`: strictly below the threshold. -/
def scratchMaskSA {α : Type} [LinearOrderedField α] (ent : Mat α) (t : α) : Mat Bool :=
  matMap (fun x => decide (x < t)) ent

/-- Lines 83 and 102 of app.py: `binary = entropy_filtered <= thresh` —
the classification used by `app.process_images_in_folder`: at or below
the threshold. -/
def scratchMaskApp {α : Type} [LinearOrderedField α] (ent : Mat α) (t : α) : Mat Bool :=
  matMap (fun x => decide (x ≤ t)) ent

/-- Lines 103-105: entropy filter, Otsu threshold, classification. -/
noncomputable def segmentSA (nf : Mat ℕ) : Except String (Mat Bool) :=
  let ent := entropyMap nf
  match otsuThreshold (cellsOf ent) with
  | .error e => .error e
  | .ok t => .ok (scratchMaskSA ent t)

/-- Line 106: `scratch_area_pix = np.sum(scratch_mask)`. -/
def areaOf (mask : Mat Bool) : ℕ := (cellsOf mask).count true

/-- Line 107: `scratch_percentage = scratch_area_pix * 100.0 / (h * w)`. -/
def pctOf {α : Type} [Field α] (area h w : ℕ) : α :=
  (area : α) * 100 / ((h : α) * (w : α))

/-- The per-frame pipeline of `process_image_file` (lines 98-107): shape,
grayscale conversion, uint8 rescale, entropy filter, Otsu threshold,
strict-`<` classification, area and percentage.  A constant entropy map
surfaces as a raised `DegenerateFrame`; a zero-area frame would raise
`ZeroDivisionError` (in fact its empty entropy map already fails Otsu). -/
noncomputable def processFrame (img : PyImg) : Except String (ℕ × ℝ) :=
  let h := imgH img
  let w := imgW img
  let nf := normalizeSA (toGray img)
  match segmentSA nf with
  | .error e => .error e
  | .ok mask =>
      if h * w = 0 then .error ("ZeroDivisionError")
      else .ok (areaOf mask, pctOf (areaOf mask) h w)

/-! ### `process_image_file` and `run_analysis` (the batch layer) -/

/-- One row of the results table: the dictionary appended to `results`.
Success rows (lines 109-114) carry `File`, `Frame`, `Scratch Area`,
`Percentage`; error rows (lines 54 and 121) carry `File` and `Error`. -/
structure ResultRow where
  file : String
  frame : Option ℕ
  area : Option ℕ
  pct : Option ℝ
  err : Option String

/-- An uploaded input as `process_image_file` sees it: the byte object,
whether it is an in-memory upload (`hasattr(file, "getbuffer")`, which
forces staging to a temporary file), and what the external decoder
(nd2reader / PIL / zipfile, lines 69-95) yields for its bytes — an
ordered frame list on success, a raised exception otherwise. -/
structure UFile where
  bf : ByteFile
  hasGetbuffer : Bool
  decode : Except String (List PyImg)

/-- What happened to `temp_path` during one `process_image_file` call:
whether a temporary file was staged (lines 58-62) and whether the
`os.remove(temp_path)` at lines 117-118 was reached. -/
structure FsTrace where
  staged : Bool
  removedTemp : Bool

/-- The `for idx, img in enumerate(frames)` loop of lines 98-114, inside
the surrounding `try`: each successful frame appends a success row named
`folder_name + "_" + filename` with 1-based frame index; the first frame
that raises jumps to the handler at lines 120-121, which appends one
error row named by the bare filename (no frame index) — the remaining
frames are never reached.  The boolean records whether the loop finished
without an exception. -/
noncomputable def framesGo (fullName errName : String) :
    ℕ → List PyImg → List ResultRow × Bool
  | _, [] => ([], true)
  | idx, fr :: rest =>
    match processFrame fr with
    | .ok m =>
        let next := framesGo fullName errName (idx + 1) rest
        (⟨fullName, some (idx + 1), some m.1, some m.2, none⟩ :: next.1, next.2)
    | .error e => ([⟨errName, none, none, none, some e⟩], false)

/-- `process_image_file` (lines 47-123): detect the type (unknown type
returns a single error row before anything is staged); stage in-memory
bytes to a temporary file; decode (a decoder exception is caught by the
handler at line 120, which appends one error row — skipping the cleanup
at lines 117-118); process the frames; on full success remove the
temporary file. -/
noncomputable def process_image_file (f : UFile) (folder : String) :
    List ResultRow × FsTrace :=
  let filename := f.bf.name
  match (detect_file_type f.bf).1 with
  | none => ([⟨filename, none, none, none, some ("Unsupported image type")⟩],
             ⟨false, false⟩)
  | some _ =>
    let staged := f.hasGetbuffer
    match f.decode with
    | .error e => ([⟨filename, none, none, none, some e⟩], ⟨staged, false⟩)
    | .ok frames =>
        let r := framesGo (folder ++ "_" ++ filename) filename 0 frames
        (r.1, ⟨staged, r.2⟩)

/-- The mean-percentage-per-file bar-chart data (lines 150-154):
`results_df.groupby("File")["Percentage"].mean()`; rows without a
`Percentage` value do not contribute, matching pandas' skipping of
missing values. -/
noncomputable def chartData (rs : List ResultRow) : List (String × ℝ) :=
  (rs.map (fun r => r.file)).dedup.map (fun n =>
    let ps := rs.filterMap (fun r => if r.file = n then r.pct else none)
    (n, listMean ps))

/-- The value returned by `run_analysis`: the results table, the Excel
serialization of that same table, and the optional chart. -/
structure AnalysisOut where
  results : List ResultRow
  excel : List ResultRow
  chart : Option (List (String × ℝ))

/-- `run_analysis` (lines 126-156): process every uploaded file in order
(folder prefix defaulting to the empty string), concatenate all rows,
always build the spreadsheet, and build the chart only when the table is
non-empty and has a `Percentage` column — i.e. when some row carries a
percentage. -/
noncomputable def run_analysis (files : List UFile) : AnalysisOut :=
  let allRs := files.flatMap (fun f => (process_image_file f "").1)
  { results := allRs
    excel := allRs
    chart :=
      if !allRs.isEmpty && allRs.any (fun r => r.pct.isSome) then
        some (chartData allRs) else none }

/-! ### The app.py variant of the pipeline -/

/-- What `read_image` hands to `process_images_in_folder`: a multi-frame
iterable (an `ND2Reader`, or any array taking the `hasattr(f, "__iter__")`
branch of line 73) or a single frame, with the optional `filename`
attribute consulted by `getattr(f, "filename", ...)`. -/
inductive AppImg where
  | multi (filename : Option String) (frames : List PyImg)
  | single (filename : Option String) (img : PyImg)

/-- One row appended to `area_list` (app.py lines 86-91 and 105-110). -/
structure AppRow where
  sr : ℕ
  name : String
  area : ℕ
  pct : ℝ

/-- The per-frame pipeline of `process_images_in_folder` (lines 77-85 and
96-104): grayscale conversion, direct uint8 cast, entropy filter, Otsu
threshold, `<=` classification, area and percentage. -/
noncomputable def processAppFrame (frame : PyImg) : Except String (ℕ × ℝ) :=
  let g := toGray frame
  let h := grayMatH g
  let w := grayMatW g
  let u := normalizeApp g
  let ent := entropyMap u
  match otsuThreshold (cellsOf ent) with
  | .error e => .error e
  | .ok t =>
      let mask := scratchMaskApp ent t
      if h * w = 0 then .error ("ZeroDivisionError")
      else .ok (areaOf mask, pctOf (areaOf mask) h w)

/-- The `for idx, frame in enumerate(frames)` loop of app.py lines 76-92:
rows appended before an exception survive; the exception itself aborts
the rest of the file's frames (it is caught by the per-file handler at
line 112, which only emits a warning — no row).  Returns the rows, the
next serial number, and whether the loop completed. -/
noncomputable def appFrames (nameBase : String) :
    ℕ → ℕ → List PyImg → List AppRow × ℕ × Bool
  | i, _, [] => ([], i, true)
  | i, idx, fr :: rest =>
    match processAppFrame fr with
    | .ok m =>
        let next := appFrames nameBase (i + 1) (idx + 1) rest
        (⟨i, nameBase ++ "_Frame" ++ toString (idx + 1), m.1, m.2⟩ :: next.1,
         next.2.1, next.2.2)
    | .error _ => ([], i, false)

/-- The `for f in folder_files` loop of `process_images_in_folder`
(app.py lines 71-113), threading the serial number `i` across files; a
per-file exception only warns and continues with the next file. -/
noncomputable def appFolderGo (folder : String) : ℕ → List AppImg → List AppRow
  | _, [] => []
  | i, .multi fn frames :: rest =>
      let r := appFrames (folder ++ "_" ++ fn.getD ("ND2_File")) i 0 frames
      r.1 ++ appFolderGo folder r.2.1 rest
  | i, .single fn img :: rest =>
      match processAppFrame img with
      | .ok m =>
          ⟨i, folder ++ "_" ++ fn.getD ("Image_File"), m.1, m.2⟩ ::
            appFolderGo folder (i + 1) rest
      | .error _ => appFolderGo folder i rest

/-- `process_images_in_folder` (app.py lines 68-114). -/
noncomputable def process_images_in_folder (files : List AppImg) (folder : String) :
    List AppRow :=
  appFolderGo folder 1 files

/-- The extensions `read_image` dispatches on (app.py lines 56-64). -/
def appExts : List String :=
  [".jpg", ".jpeg", ".png", ".tif", ".tiff", ".jp2", ".nd2"]

/-- An upload as app.py sees it: a name, and what the branch-specific
decoder (PIL / tifffile / ND2Reader) yields for its bytes. -/
structure AppFile where
  name : String
  decode : Except String AppImg

/-- `read_image` (app.py lines 54-65): dispatch on the lower-cased
extension; every recognized branch hands the bytes to its decoder (whose
outcome is this file's recorded decode result); anything else raises
`ValueError("Unsupported image type: ...")`. -/
def read_image (f : AppFile) : Except String AppImg :=
  let ext := splitExtLower f.name
  if ext ∈ appExts then f.decode
  else .error ("Unsupported image type: " ++ ext)

/-- The `for f in uploaded: img = read_image(f); ...append(img)` loop in
the Run Analysis handler (app.py lines 148-151): the first decoder
exception propagates out of the loop. -/
def readAll : List AppFile → Except String (List AppImg)
  | [] => .ok []
  | f :: rest =>
    match read_image f with
    | .error e => .error e
    | .ok img =>
        match readAll rest with
        | .error e => .error e
        | .ok imgs => .ok (img :: imgs)

/-- The body of the `st.button("Run Analysis")` handler (app.py lines
146-178): read every upload, then run the folder analysis; any exception
inside the `try` — including a `read_image` failure on a single file —
reaches the `except` at line 176, so nothing at all is stored. -/
noncomputable def runAnalysisHandler (files : List AppFile) :
    Except String (List AppRow) :=
  match readAll files with
  | .error e => .error e
  | .ok imgs => .ok (process_images_in_folder imgs "Uploaded")

/-! ### Helper lemmas -/

theorem dedup_allEq {α : Type} [DecidableEq α] {v : α} :
    ∀ l : List α, l ≠ [] → (∀ x ∈ l, x = v) → l.dedup = [v] := by
  intro l
  induction l with
  | nil => intro h; exact absurd rfl h
  | cons x t ih =>
      intro _ hall
      cases t with
      | nil =>
          have hx : x = v := hall x (by simp)
          rw [List.dedup_cons_of_not_mem (by simp), List.dedup_nil, hx]
      | cons y t2 =>
          have hx : x = v := hall x (by simp)
          have hy : y = v := hall y (by simp)
          have hmem : x ∈ y :: t2 := by
            rw [hx, ← hy]; exact List.mem_cons_self _ _
          rw [List.dedup_cons_of_mem hmem]
          exact ih (by simp) (fun z hz => hall z (List.mem_cons_of_mem _ hz))

theorem shannonEntropy_allEq {v : ℕ} {l : List ℕ} (hne : l ≠ [])
    (hall : ∀ x ∈ l, x = v) : shannonEntropy l = 0 := by
  have hd : l.dedup = [v] := dedup_allEq l hne hall
  have hc : l.count v = l.length := by
    rw [List.count_eq_length]
    intro b hb
    exact (hall b hb).symm
  have hlen : (l.length : ℝ) ≠ 0 := by
    have := List.length_pos.mpr hne
    positivity
  have hh : histCounts l = [l.length] := by
    unfold histCounts
    rw [hd, List.map_cons, List.map_nil, hc]
  unfold shannonEntropy
  rw [hh, List.map_cons, List.map_nil, List.sum_cons, List.sum_nil]
  unfold entTerm
  rw [div_self hlen, Real.logb_one]
  ring

theorem mem_neighborhood {m : Mat ℕ} {i j : ℕ} {x : ℕ}
    (hx : x ∈ neighborhood m i j) : x ∈ cellsOf m := by
  unfold neighborhood at hx
  rcases List.mem_filterMap.mp hx with ⟨d, _, hget⟩
  unfold getCell at hget
  by_cases hneg : ((i : ℤ) + d.1 < 0 ∨ (j : ℤ) + d.2 < 0)
  · rw [if_pos hneg] at hget; exact absurd hget (by simp)
  · rw [if_neg hneg] at hget
    rcases Option.bind_eq_some.mp hget with ⟨row, hrow, hcell⟩
    exact List.mem_flatten.mpr ⟨row, List.get?_mem hrow, List.get?_mem hcell⟩

theorem entropyMap_allEq_zero {m : Mat ℕ} {v : ℕ}
    (hall : ∀ x ∈ cellsOf m, x = v) :
    ∀ e ∈ cellsOf (entropyMap m), e = 0 := by
  intro e he
  unfold entropyMap cellsOf at he
  rw [List.mem_flatten] at he
  obtain ⟨r, hr, her⟩ := he
  rw [List.mem_map] at hr
  obtain ⟨i, _, rfl⟩ := hr
  rw [List.mem_map] at her
  obtain ⟨j, _, rfl⟩ := her
  by_cases hne : neighborhood m i j = []
  · unfold shannonEntropy histCounts
    rw [hne]
    simp
  · exact shannonEntropy_allEq hne
      (fun x hx => hall x (mem_neighborhood hx))

theorem otsu_allEq_err {α : Type} [LinearOrderedField α] {v : α} {vals : List α}
    (hall : ∀ x ∈ vals, x = v) : otsuThreshold vals = .error degMsg := by
  unfold otsuThreshold
  by_cases hnil : vals = []
  · rw [hnil, List.dedup_nil]
  · rw [dedup_allEq vals hnil hall]

theorem segmentSA_allEq_err {m : Mat ℕ} {v : ℕ}
    (hall : ∀ x ∈ cellsOf m, x = v) : segmentSA m = .error degMsg := by
  have h := otsu_allEq_err (v := (0 : ℝ)) (entropyMap_allEq_zero hall)
  simp only [segmentSA, h]

theorem processFrame_const {m : Mat ℕ} {v : ℕ}
    (hall : ∀ x ∈ cellsOf m, x = v) :
    processFrame (.gray (.u8 m)) = .error degMsg := by
  have h : segmentSA (normalizeSA (toGray (.gray (.u8 m)))) = .error degMsg := by
    show segmentSA m = .error degMsg
    exact segmentSA_allEq_err hall
  simp only [processFrame, h]

theorem framesGo_row_inv (fullName errName : String) :
    ∀ (i : ℕ) (fs : List PyImg), ∀ r ∈ (framesGo fullName errName i fs).1,
      r.pct.isSome ↔ r.err = none := by
  intro i fs
  induction fs generalizing i with
  | nil => simp [framesGo]
  | cons f t ih =>
      intro r hr
      unfold framesGo at hr
      cases hpf : processFrame f with
      | ok m =>
          rw [hpf] at hr
          rcases List.mem_cons.mp hr with rfl | hr2
          · simp
          · exact ih (i + 1) r hr2
      | error e =>
          rw [hpf] at hr
          rcases List.mem_cons.mp hr with rfl | hr2
          · simp
          · exact absurd hr2 (by simp)

theorem pif_row_inv (f : UFile) (folder : String) :
    ∀ r ∈ (process_image_file f folder).1, r.pct.isSome ↔ r.err = none := by
  unfold process_image_file
  cases (detect_file_type f.bf).1 with
  | none => intro r hr; rcases List.mem_singleton.mp hr with rfl; simp
  | some _ =>
      cases f.decode with
      | error e => intro r hr; rcases List.mem_singleton.mp hr with rfl; simp
      | ok frames => exact framesGo_row_inv _ _ 0 frames

theorem pif_decode_ok (f : UFile) (folder ext : String) (frames : List PyImg)
    (hdet : (detect_file_type f.bf).1 = some ext) (hdec : f.decode = .ok frames) :
    process_image_file f folder =
      ((framesGo (folder ++ "_" ++ f.bf.name) f.bf.name 0 frames).1,
        ⟨f.hasGetbuffer, (framesGo (folder ++ "_" ++ f.bf.name) f.bf.name 0 frames).2⟩) := by
  simp only [process_image_file, hdet, hdec]

theorem processAppFrame_const {m : Mat ℕ} {v : ℕ}
    (hall : ∀ x ∈ cellsOf m, x = v) :
    processAppFrame (.gray (.u8 m)) = .error degMsg := by
  have h : otsuThreshold
      (cellsOf (entropyMap (normalizeApp (toGray (.gray (.u8 m)))))) =
        .error degMsg := by
    show otsuThreshold (cellsOf (entropyMap m)) = .error degMsg
    exact otsu_allEq_err (v := (0 : ℝ)) (entropyMap_allEq_zero hall)
  simp only [processAppFrame, h]

theorem appFrames_err (nb : String) (bad : PyImg) (rest : List PyImg)
    (eA : String) (hbad : processAppFrame bad = .error eA) :
    ∀ pre : List PyImg, (∀ x ∈ pre, ∃ m, processAppFrame x = .ok m) →
      ∀ j idx : ℕ,
        appFrames nb j idx (pre ++ bad :: rest) =
          ((appFrames nb j idx pre).1, (appFrames nb j idx pre).2.1, false) := by
  intro pre
  induction pre with
  | nil =>
      intro _ j idx
      simp [appFrames, hbad]
  | cons p ps ih =>
      intro hpre j idx
      obtain ⟨m, hm⟩ := hpre p (by simp)
      have ihh := ih (fun x hx => hpre x (by simp [hx])) (j + 1) (idx + 1)
      simp [appFrames, hm, ihh]

theorem getD_map_of_lt {α β : Type} (f : α → β) :
    ∀ (l : List α) (n : ℕ), n < l.length → ∀ (d : α) (e : β),
      (l.map f).getD n e = f (l.getD n d) := by
  intro l
  induction l with
  | nil => intro n hn; simp at hn
  | cons x t ih =>
      intro n hn d e
      cases n with
      | zero => simp
      | succ k =>
          simp only [List.map_cons, List.getD_cons_succ]
          exact ih k (by simpa using hn) d e

/-! ### Claim theorems -/

/-- C1 counterexample: the claim says that in every code path a pixel
whose entropy value equals the threshold is classified as non-scratch;
but the classification of `app.process_images_in_folder` (app.py lines
83 and 102) uses `<=`, so a pixel sitting exactly at the threshold is
classified as scratch there, while the scratch_analysis path classifies
it as non-scratch. -/
theorem c1_counterexample :
    scratchMaskApp [[(3 : ℚ)]] 3 = [[true]] ∧
      scratchMaskSA [[(3 : ℚ)]] 3 = [[false]] := by
  exact ⟨rfl, rfl⟩

/-- C1 (amended): in `scratch_analysis.process_image_file` a pixel is
scratch iff its entropy value is strictly below the Otsu threshold (ties
to non-scratch), while in `app.process_images_in_folder` a pixel is
scratch iff its entropy value is at or below the threshold (ties to
scratch). -/
theorem c1_amended {α : Type} [LinearOrderedField α] (ent : Mat α) (t : α)
    (i j : ℕ) (hi : i < ent.length) (hj : j < (ent.getD i []).length) :
    (((scratchMaskSA ent t).getD i []).getD j false = true ↔
        (ent.getD i []).getD j 0 < t) ∧
    (((scratchMaskApp ent t).getD i []).getD j false = true ↔
        (ent.getD i []).getD j 0 ≤ t) := by
  unfold scratchMaskSA scratchMaskApp matMap
  constructor
  · rw [getD_map_of_lt (fun r => r.map (fun x => decide (x < t))) ent i hi [] [],
      getD_map_of_lt (fun x => decide (x < t)) _ j hj 0 false]
    simp
  · rw [getD_map_of_lt (fun r => r.map (fun x => decide (x ≤ t))) ent i hi [] [],
      getD_map_of_lt (fun x => decide (x ≤ t)) _ j hj 0 false]
    simp

/-- C1 witness: the amended classification facts instantiated at a concrete 1x2 entropy map whose second entry equals the threshold. -/
theorem c1_witness :
    0 < ([[(2 : ℚ), 3]] : Mat ℚ).length ∧
    1 < (([[(2 : ℚ), 3]] : Mat ℚ).getD 0 []).length ∧
    ((((scratchMaskSA [[(2 : ℚ), 3]] 3).getD 0 []).getD 1 false = true ↔
        (([[(2 : ℚ), 3]] : Mat ℚ).getD 0 []).getD 1 0 < 3) ∧
     (((scratchMaskApp [[(2 : ℚ), 3]] 3).getD 0 []).getD 1 false = true ↔
        (([[(2 : ℚ), 3]] : Mat ℚ).getD 0 []).getD 1 0 ≤ 3)) :=
  ⟨by decide, by decide,
    c1_amended [[(2 : ℚ), 3]] 3 0 1 (by decide) (by decide)⟩

/-- C2 counterexample: in the app.py Run Analysis handler a decode
failure on one upload aborts the whole batch — `read_image` raises inside
the single `try`, so no error row is recorded and the other (valid)
file's results are never produced, contradicting the claim for that
batch operation. -/
theorem c2_counterexample :
    runAnalysisHandler
        [⟨"broken.jpg", .error ("cannot identify image file")⟩,
         ⟨"fine.nd2", .ok (.multi none [])⟩] =
      .error ("cannot identify image file") := by
  rfl

/-- C2 (amended): for `scratch_analysis.run_analysis` the claim holds —
the batch is the concatenation of each file's rows in order, an
unsupported source contributes exactly one error row, and a source whose
decoder raises contributes exactly one error row; but in the app.py Run
Analysis handler a single failing source aborts the entire batch (see the
counterexample). -/
theorem c2_amended :
    (∀ files : List UFile,
        (run_analysis files).results =
          files.flatMap (fun f => (process_image_file f "").1)) ∧
    (∀ f : UFile, (detect_file_type f.bf).1 = none →
        (process_image_file f "").1 =
          [⟨f.bf.name, none, none, none, some ("Unsupported image type")⟩]) ∧
    (∀ (f : UFile) (ext e : String), (detect_file_type f.bf).1 = some ext →
        f.decode = .error e →
        (process_image_file f "").1 = [⟨f.bf.name, none, none, none, some e⟩]) := by
  refine ⟨fun files => rfl, ?_, ?_⟩
  · intro f h
    simp only [process_image_file, h]
  · intro f ext e hd he
    simp only [process_image_file, hd, he]

/-- C2 witness: the amended batch facts instantiated at one unsupported upload and one upload whose decoder raises. -/
theorem c2_witness :
    (detect_file_type (ByteFile.mk ("junk.xyz") true [] 0)).1 = none ∧
    (process_image_file ⟨⟨"junk.xyz", true, [], 0⟩, true, .ok []⟩ "").1 =
      [⟨"junk.xyz", none, none, none, some ("Unsupported image type")⟩] ∧
    (detect_file_type (ByteFile.mk ("broken.jpg") true [] 0)).1 = some (".jpg") ∧
    (⟨⟨"broken.jpg", true, [], 0⟩, true, .error ("decode failed")⟩ : UFile).decode
        = .error ("decode failed") ∧
    (process_image_file ⟨⟨"broken.jpg", true, [], 0⟩, true,
        .error ("decode failed")⟩ "").1 =
      [⟨"broken.jpg", none, none, none, some ("decode failed")⟩] :=
  ⟨rfl,
   c2_amended.2.1 ⟨⟨"junk.xyz", true, [], 0⟩, true, .ok []⟩ rfl,
   rfl, rfl,
   c2_amended.2.2 ⟨⟨"broken.jpg", true, [], 0⟩, true, .error ("decode failed")⟩
     (".jpg") ("decode failed") rfl rfl⟩

/-- C5 counterexample: the claim says non-float (e.g. 16-bit integer)
samples are cast directly without the factor 255, and floats in [0,1]
are multiplied by 255.  But `scratch_analysis` multiplies a uint16 sample
by 255 as well (value 1 becomes 255, not 1), and `app.py` casts floats
directly (value 1/2 becomes 0, not 127). -/
theorem c5_counterexample :
    normalizeSA (.u16 [[1]]) = [[255]] ∧
    specNormalize (.u16 [[1]]) = [[1]] ∧
    normalizeSA (.u16 [[1]]) ≠ specNormalize (.u16 [[1]]) ∧
    normalizeApp (.fl [[(1 : ℚ) / 2]]) = [[0]] ∧
    specNormalize (.fl [[(1 : ℚ) / 2]]) = [[127]] := by
  have hp1 : castU8 ((1 : ℚ) / 2) = 0 := by
    unfold castU8 pyTrunc
    rw [if_pos (by norm_num)]
    norm_num
  have hp2 : castU8 ((1 : ℚ) / 2 * 255) = 127 := by
    have hf : (⌊(1 : ℚ) / 2 * 255⌋ : ℤ) = 127 := by norm_num
    unfold castU8 pyTrunc
    rw [if_pos (by norm_num), hf]
    decide
  refine ⟨rfl, rfl, by decide, ?_, ?_⟩
  · show matMap castU8 [[(1 : ℚ) / 2]] = [[0]]
    unfold matMap
    simp only [List.map_cons, List.map_nil, hp1]
  · show matMap (fun q => castU8 (q * 255)) [[(1 : ℚ) / 2]] = [[127]]
    unfold matMap
    simp only [List.map_cons, List.map_nil, hp2]

/-- C5 (amended): each path applies one uniform rescale rule, but they
are not the spec's rule: `scratch_analysis` multiplies every non-uint8
frame by 255 before the uint8 cast — for uint16 samples this amounts to
negation modulo 256 — while `app.py` casts every frame directly to uint8
without any rescaling, including floats in [0,1]. -/
theorem c5_amended :
    (∀ m : Mat ℕ,
        normalizeSA (.u16 m) = matMap (fun v => (256 - v % 256) % 256) m) ∧
    (∀ m : Mat ℚ, normalizeSA (.fl m) = matMap (fun q => castU8 (q * 255)) m) ∧
    (∀ m : Mat ℕ, normalizeApp (.u16 m) = matMap (fun v => v % 256) m) ∧
    (∀ m : Mat ℚ, normalizeApp (.fl m) = matMap castU8 m) := by
  refine ⟨?_, fun m => rfl, fun m => rfl, fun m => rfl⟩
  intro m
  have hfun : ∀ v : ℕ, v * 255 % 65536 % 256 = (256 - v % 256) % 256 := by
    intro v; omega
  show matMap (fun v => v * 255 % 65536 % 256) m =
    matMap (fun v => (256 - v % 256) % 256) m
  unfold matMap
  simp only [hfun]

/-- C7: the staged temporary file is NOT deleted on every exit path.
`os.remove(temp_path)` (lines 117-118) sits inside the `try` after the
frame loop, so when extraction raises — here an in-memory `.nd2` upload
whose decode fails — control jumps to the handler at line 120 and the
staged file is left on disk; the claim (and spec §4.1) requires deletion
on every exit path.  On the fully successful path the file is removed. -/
theorem c7_theorem :
    (process_image_file ⟨⟨"broken.nd2", true, [], 0⟩, true,
        .error ("bad nd2")⟩ "").2 = ⟨true, false⟩ ∧
    (process_image_file ⟨⟨"broken.nd2", true, [], 0⟩, true,
        .error ("bad nd2")⟩ "").1 =
      [⟨"broken.nd2", none, none, none, some ("bad nd2")⟩] ∧
    (process_image_file ⟨⟨"empty.nd2", true, [], 0⟩, true, .ok []⟩ "").2 =
      ⟨true, true⟩ := by
  exact ⟨rfl, rfl, rfl⟩

/-- C3 counterexample: a two-frame ND2 file whose first frame is
degenerate yields, in `scratch_analysis.process_image_file`, a single
error row with no frame index — the claim's promised (source, frame)
attribution is absent and the second frame's row is missing, because the
exception handler at lines 120-121 sits outside the frame loop; and in
`app.process_images_in_folder` the same file yields no row at all for
either frame, because the per-file handler at app.py line 112 only
warns. -/
theorem c3_counterexample :
    (process_image_file ⟨⟨"two.nd2", true, [], 0⟩, true,
        .ok [.gray (.u8 [[5]]), .gray (.u8 [[5]])]⟩ "").1 =
      [⟨"two.nd2", none, none, none, some degMsg⟩] ∧
    appFolderGo ("Uploaded") 1
        [.multi none [.gray (.u8 [[5]]), .gray (.u8 [[5]])]] = [] := by
  have hpf : processFrame (.gray (.u8 [[5]])) = .error degMsg :=
    processFrame_const (v := 5) (by decide)
  have hpa : processAppFrame (.gray (.u8 [[5]])) = .error degMsg :=
    processAppFrame_const (v := 5) (by decide)
  constructor
  · rw [pif_decode_ok
      ⟨⟨"two.nd2", true, [], 0⟩, true, .ok [.gray (.u8 [[5]]), .gray (.u8 [[5]])]⟩
      "" (".nd2") [.gray (.u8 [[5]]), .gray (.u8 [[5]])] rfl rfl]
    simp only [framesGo, hpf]
  · simp [appFolderGo, appFrames, hpa]

/-- C3 (amended): in `scratch_analysis.process_image_file` an exception
while processing one frame appends the rows of the frames before it,
then one error row named by the bare filename with no frame index, and
abandons all remaining frames of that file (the loop never resumes);
other files are unaffected because `run_analysis` processes each file
independently.  In `app.process_images_in_folder` the per-file handler
likewise keeps the rows appended before the exception, records no row
at all for the failure (only a warning), abandons the remaining frames
of that file, and continues with the next file of the batch. -/
theorem c3_amended (fullName errName : String) (i : ℕ) (pre : List PyImg)
    (bad : PyImg) (rest : List PyImg) (e : String)
    (hpre : ∀ x ∈ pre, ∃ m, processFrame x = .ok m)
    (hbad : processFrame bad = .error e) :
    ((framesGo fullName errName i (pre ++ bad :: rest)).1 =
      (framesGo fullName errName i pre).1 ++ [⟨errName, none, none, none, some e⟩] ∧
     (framesGo fullName errName i (pre ++ bad :: rest)).2 = false) ∧
    ∀ eA : String, processAppFrame bad = .error eA →
      (∀ x ∈ pre, ∃ m, processAppFrame x = .ok m) →
      (∀ nb : String, ∀ j idx : ℕ,
        appFrames nb j idx (pre ++ bad :: rest) =
          ((appFrames nb j idx pre).1, (appFrames nb j idx pre).2.1, false)) ∧
      ∀ (folder : String) (fn : Option String) (j : ℕ) (files : List AppImg),
        appFolderGo folder j (.multi fn (pre ++ bad :: rest) :: files) =
          (appFrames (folder ++ "_" ++ fn.getD ("ND2_File")) j 0 pre).1 ++
            appFolderGo folder
              ((appFrames (folder ++ "_" ++ fn.getD ("ND2_File")) j 0 pre).2.1)
              files := by
  constructor
  · revert hpre
    induction pre generalizing i with
    | nil =>
        intro _
        simp only [List.nil_append]
        constructor
        · simp [framesGo, hbad]
        · simp [framesGo, hbad]
    | cons p ps ih =>
        intro hpre
        obtain ⟨m, hm⟩ := hpre p (by simp)
        have ihh := ih (i + 1) (fun x hx => hpre x (by simp [hx]))
        simp only [List.cons_append]
        constructor
        · simp only [framesGo, hm]
          rw [ihh.1]
          simp
        · simp only [framesGo, hm]
          exact ihh.2
  · intro eA hbadA hpreA
    refine ⟨fun nb j idx => appFrames_err nb bad rest eA hbadA pre hpreA j idx, ?_⟩
    intro folder fn j files
    simp only [appFolderGo,
      appFrames_err (folder ++ "_" ++ fn.getD ("ND2_File")) bad rest eA hbadA
        pre hpreA j 0]

/-- C3 witness: the amended facts instantiated with an empty ok-prefix
and a degenerate first frame followed by one more frame, for both the
scratch_analysis frame loop and the app.py folder loop. -/
theorem c3_witness :
    (∀ x ∈ ([] : List PyImg), ∃ m, processFrame x = .ok m) ∧
    processFrame (.gray (.u8 [[5]])) = .error degMsg ∧
    processAppFrame (.gray (.u8 [[5]])) = .error degMsg ∧
    ((framesGo ("_two.nd2") ("two.nd2") 0
          ([] ++ .gray (.u8 [[5]]) :: [.gray (.u8 [[5]])])).1 =
        (framesGo ("_two.nd2") ("two.nd2") 0 []).1 ++
          [⟨"two.nd2", none, none, none, some degMsg⟩] ∧
      (framesGo ("_two.nd2") ("two.nd2") 0
          ([] ++ .gray (.u8 [[5]]) :: [.gray (.u8 [[5]])])).2 = false) ∧
    appFolderGo ("Uploaded") 1
        (.multi none ([] ++ .gray (.u8 [[5]]) :: [.gray (.u8 [[5]])]) :: []) =
      (appFrames ("Uploaded" ++ "_" ++ (none : Option String).getD ("ND2_File"))
          1 0 []).1 ++
        appFolderGo ("Uploaded")
          ((appFrames
              ("Uploaded" ++ "_" ++ (none : Option String).getD ("ND2_File"))
              1 0 []).2.1) [] :=
  have hbad : processFrame (.gray (.u8 [[5]])) = .error degMsg :=
    processFrame_const (v := 5) (by decide)
  have hbadA : processAppFrame (.gray (.u8 [[5]])) = .error degMsg :=
    processAppFrame_const (v := 5) (by decide)
  have hpre0 : ∀ x ∈ ([] : List PyImg), ∃ m, processFrame x = .ok m :=
    fun x hx => absurd hx (by simp)
  have hpre0A : ∀ x ∈ ([] : List PyImg), ∃ m, processAppFrame x = .ok m :=
    fun x hx => absurd hx (by simp)
  ⟨hpre0, hbad, hbadA,
    (c3_amended ("_two.nd2") ("two.nd2") 0 [] (.gray (.u8 [[5]]))
      [.gray (.u8 [[5]])] degMsg hpre0 hbad).1,
    ((c3_amended ("_two.nd2") ("two.nd2") 0 [] (.gray (.u8 [[5]]))
      [.gray (.u8 [[5]])] degMsg hpre0 hbad).2 degMsg hbadA hpre0A).2
      ("Uploaded") none 1 []⟩

/-- C4: a frame whose normalized pixel values are all equal has a
constant (all-zero) entropy map, so threshold selection fails with
`DegenerateFrame`; the per-frame pipeline returns that error instead of
any count or percentage, the file's result is a single error-bearing
row with no fabricated measurement, and the rest of the batch is
processed unchanged. -/
theorem c4_theorem (m : Mat ℕ) (v : ℕ) (hall : ∀ x ∈ cellsOf m, x = v) :
    processFrame (.gray (.u8 m)) = .error degMsg ∧
    ∀ (f : UFile) (ext : String), (detect_file_type f.bf).1 = some ext →
      f.decode = .ok [.gray (.u8 m)] →
      ((process_image_file f "").1 = [⟨f.bf.name, none, none, none, some degMsg⟩] ∧
        ∀ rest : List UFile, (run_analysis (f :: rest)).results =
          ⟨f.bf.name, none, none, none, some degMsg⟩ :: (run_analysis rest).results) := by
  have hpf := processFrame_const (v := v) hall
  refine ⟨hpf, ?_⟩
  intro f ext hdet hdec
  have hpif : (process_image_file f "").1 =
      [⟨f.bf.name, none, none, none, some degMsg⟩] := by
    rw [pif_decode_ok f "" ext _ hdet hdec]
    simp only [framesGo, hpf]
  refine ⟨hpif, ?_⟩
  intro rest
  show (run_analysis (f :: rest)).results = _
  simp only [run_analysis, List.flatMap_cons, hpif]
  rfl

/-- C4 witness: a concrete constant 1x1 frame inside a concrete ND2 upload. -/
theorem c4_witness :
    (∀ x ∈ cellsOf [[(7 : ℕ)]], x = 7) ∧
    processFrame (.gray (.u8 [[7]])) = .error degMsg ∧
    (detect_file_type (ByteFile.mk ("blank.nd2") true [] 0)).1 = some (".nd2") ∧
    (process_image_file
        ⟨⟨"blank.nd2", true, [], 0⟩, true, .ok [.gray (.u8 [[7]])]⟩ "").1 =
      [⟨"blank.nd2", none, none, none, some degMsg⟩] :=
  have hall : ∀ x ∈ cellsOf [[(7 : ℕ)]], x = 7 := by decide
  ⟨hall, (c4_theorem [[7]] 7 hall).1, rfl,
    ((c4_theorem [[7]] 7 hall).2
      ⟨⟨"blank.nd2", true, [], 0⟩, true, .ok [.gray (.u8 [[7]])]⟩
      (".nd2") rfl rfl).1⟩

/-- C6: for a mask of dimensions h × w (h·w > 0) the percentage computed
by the Area Quantifier — `areaOf` true cells, `pctOf` = area·100/(h·w) —
lies in [0, 100], is 0 iff the scratch pixel count is 0, and is 100 iff
every pixel of the frame is classified as scratch. -/
theorem c6_theorem {α : Type} [LinearOrderedField α] (mask : Mat Bool) (h w : ℕ)
    (hh : matH mask = h) (hrect : ∀ row ∈ mask, row.length = w)
    (hpos : 0 < h * w) :
    (0 : α) ≤ pctOf (areaOf mask) h w ∧
    pctOf (α := α) (areaOf mask) h w ≤ 100 ∧
    (pctOf (α := α) (areaOf mask) h w = 0 ↔ areaOf mask = 0) ∧
    (pctOf (α := α) (areaOf mask) h w = 100 ↔
      ∀ row ∈ mask, ∀ b ∈ row, b = true) := by
  have hlen : (cellsOf mask).length = h * w := by
    unfold cellsOf
    rw [List.length_flatten]
    have hmap : mask.map List.length = List.replicate h w := by
      rw [List.eq_replicate]
      constructor
      · simpa [matH] using hh
      · intro b hb
        rcases List.mem_map.mp hb with ⟨row, hrow, rfl⟩
        exact hrect row hrow
    rw [hmap, List.sum_replicate, smul_eq_mul]
  have harea : areaOf mask ≤ h * w := by
    unfold areaOf
    rw [← hlen]
    exact List.count_le_length _ _
  have hd : (0 : α) < (h : α) * (w : α) := by
    have h1 : (0 : α) < ((h * w : ℕ) : α) := by exact_mod_cast hpos
    push_cast at h1
    exact h1
  have hcast : ((areaOf mask : ℕ) : α) ≤ (h : α) * (w : α) := by
    have h1 : ((areaOf mask : ℕ) : α) ≤ ((h * w : ℕ) : α) := by exact_mod_cast harea
    push_cast at h1
    exact h1
  unfold pctOf
  refine ⟨?_, ?_, ?_, ?_⟩
  · apply div_nonneg ?_ (le_of_lt hd)
    positivity
  · rw [div_le_iff hd]
    nlinarith
  · rw [div_eq_zero_iff]
    constructor
    · rintro (h1 | h2)
      · rcases mul_eq_zero.mp h1 with ha | hbad
        · exact_mod_cast ha
        · norm_num at hbad
      · exact absurd h2 (ne_of_gt hd)
    · intro ha
      left
      rw [ha]
      norm_num
  · rw [div_eq_iff (ne_of_gt hd)]
    constructor
    · intro h1
      have ha : areaOf mask = h * w := by
        have h2 : ((areaOf mask : ℕ) : α) = ((h * w : ℕ) : α) := by
          push_cast
          nlinarith
        exact_mod_cast h2
      intro row hrow b hb
      have hcount : (cellsOf mask).count true = (cellsOf mask).length := by
        have : areaOf mask = (cellsOf mask).length := by rw [hlen]; exact ha
        unfold areaOf at this
        exact this
      exact (List.count_eq_length.mp hcount b
        (List.mem_flatten.mpr ⟨row, hrow, hb⟩)).symm
    · intro hallb
      have hcount : (cellsOf mask).count true = (cellsOf mask).length :=
        List.count_eq_length.mpr (fun b hb => by
          rcases List.mem_flatten.mp hb with ⟨row, hrow, hbrow⟩
          exact (hallb row hrow b hbrow).symm)
      have ha : areaOf mask = h * w := by
        unfold areaOf
        rw [hcount, hlen]
      rw [ha]
      push_cast
      ring

/-- C6 witness: the quantifier facts at a concrete 1x2 mask with one scratch pixel. -/
theorem c6_witness :
    matH [[true, false]] = 1 ∧ (∀ row ∈ [[true, false]], row.length = 2) ∧
    0 < 1 * 2 ∧
    ((0 : ℚ) ≤ pctOf (areaOf [[true, false]]) 1 2 ∧
      pctOf (α := ℚ) (areaOf [[true, false]]) 1 2 ≤ 100 ∧
      (pctOf (α := ℚ) (areaOf [[true, false]]) 1 2 = 0 ↔ areaOf [[true, false]] = 0) ∧
      (pctOf (α := ℚ) (areaOf [[true, false]]) 1 2 = 100 ↔
        ∀ row ∈ [[true, false]], ∀ b ∈ row, b = true)) :=
  ⟨by decide, by decide, by decide,
    c6_theorem [[true, false]] 1 2 (by decide) (by decide) (by decide)⟩

/-- C9: `run_analysis` returns a chart exactly when the aggregated table
is non-empty and has a Percentage column, i.e. when at least one frame
produced a successful measurement; otherwise the chart is `None` while
the results table and the spreadsheet serialization of it are still
produced. -/
theorem c9_theorem (files : List UFile) :
    ((run_analysis files).chart.isSome = true ↔
      ∃ r ∈ (run_analysis files).results, r.err = none ∧ r.pct.isSome) ∧
    (run_analysis files).excel = (run_analysis files).results := by
  refine ⟨?_, rfl⟩
  simp only [run_analysis]
  by_cases hcond :
      (!(files.flatMap (fun f => (process_image_file f "").1)).isEmpty &&
        (files.flatMap (fun f => (process_image_file f "").1)).any
          (fun r => r.pct.isSome)) = true
  · rw [if_pos hcond]
    constructor
    · intro _
      rcases List.any_eq_true.mp (Bool.and_eq_true_iff.mp hcond).2 with ⟨r, hr, hp⟩
      refine ⟨r, hr, ?_, hp⟩
      rcases List.mem_flatMap.mp hr with ⟨f, _, hrf⟩
      exact (pif_row_inv f "" r hrf).mp hp
    · intro _
      rfl
  · rw [if_neg hcond]
    constructor
    · intro habs
      exact absurd habs (by simp)
    · rintro ⟨r, hr, _, hp⟩
      exfalso
      apply hcond
      rw [Bool.and_eq_true_iff]
      refine ⟨?_, List.any_eq_true.mpr ⟨r, hr, hp⟩⟩
      have hne : files.flatMap (fun f => (process_image_file f "").1) ≠ [] :=
        List.ne_nil_of_mem hr
      simp [hne]

/-- C8: on a single-channel normalized frame whose entropy map is
non-constant, segmentation is deterministic — the entropy-filter /
Otsu-threshold / classification composite is a pure function of the
frame, so two runs give bit-identical masks (and hence identical counts
and percentages), and the segmenter actually produces a mask (Otsu does
not hit the degenerate branch). -/
theorem c8_theorem (nf : Mat ℕ)
    (hnc : ∃ x ∈ cellsOf (entropyMap nf),
      ∃ y ∈ cellsOf (entropyMap nf), x ≠ y) :
    segmentSA nf = segmentSA nf ∧
    processFrame (.gray (.u8 nf)) = processFrame (.gray (.u8 nf)) ∧
    ∃ t : ℝ, segmentSA nf = .ok (scratchMaskSA (entropyMap nf) t) := by
  refine ⟨rfl, rfl, ?_⟩
  obtain ⟨x, hx, y, hy, hxy⟩ := hnc
  cases hd : (cellsOf (entropyMap nf)).dedup with
  | nil =>
      exfalso
      have hx2 : x ∈ (cellsOf (entropyMap nf)).dedup := List.mem_dedup.mpr hx
      rw [hd] at hx2
      exact absurd hx2 (by simp)
  | cons c cs =>
      cases cs with
      | nil =>
          exfalso
          have hx2 : x ∈ (cellsOf (entropyMap nf)).dedup := List.mem_dedup.mpr hx
          have hy2 : y ∈ (cellsOf (entropyMap nf)).dedup := List.mem_dedup.mpr hy
          rw [hd] at hx2 hy2
          simp at hx2 hy2
          exact hxy (hx2.trans hy2.symm)
      | cons c2 cs2 =>
          refine ⟨argmaxBy (betweenClassVar (cellsOf (entropyMap nf))) c (c2 :: cs2), ?_⟩
          simp only [segmentSA, otsuThreshold, hd]

/-- C8 witness: a concrete 1x7 frame with one bright pixel; its entropy map is proved non-constant and the theorem is applied to it. -/
theorem c8_witness :
    (∃ x ∈ cellsOf (entropyMap [[255, 0, 0, 0, 0, 0, 0]]),
      ∃ y ∈ cellsOf (entropyMap [[255, 0, 0, 0, 0, 0, 0]]), x ≠ y) ∧
    ∃ t : ℝ, segmentSA [[255, 0, 0, 0, 0, 0, 0]] =
      .ok (scratchMaskSA (entropyMap [[255, 0, 0, 0, 0, 0, 0]]) t) := by
  have hcells : cellsOf (entropyMap [[255, 0, 0, 0, 0, 0, 0]]) =
      [shannonEntropy (neighborhood [[255, 0, 0, 0, 0, 0, 0]] 0 0),
       shannonEntropy (neighborhood [[255, 0, 0, 0, 0, 0, 0]] 0 1),
       shannonEntropy (neighborhood [[255, 0, 0, 0, 0, 0, 0]] 0 2),
       shannonEntropy (neighborhood [[255, 0, 0, 0, 0, 0, 0]] 0 3),
       shannonEntropy (neighborhood [[255, 0, 0, 0, 0, 0, 0]] 0 4),
       shannonEntropy (neighborhood [[255, 0, 0, 0, 0, 0, 0]] 0 5),
       shannonEntropy (neighborhood [[255, 0, 0, 0, 0, 0, 0]] 0 6)] := rfl
  have hn0 : neighborhood [[255, 0, 0, 0, 0, 0, 0]] 0 0 = [255, 0, 0, 0, 0, 0] := by
    decide
  have hn6 : neighborhood [[255, 0, 0, 0, 0, 0, 0]] 0 6 = [0, 0, 0, 0, 0, 0] := by
    decide
  have hH6 : shannonEntropy [0, 0, 0, 0, 0, 0] = 0 :=
    shannonEntropy_allEq (v := 0) (by decide) (by decide)
  have hH0 : 0 < shannonEntropy [255, 0, 0, 0, 0, 0] := by
    have hhc : histCounts [255, 0, 0, 0, 0, 0] = [1, 5] := by decide
    unfold shannonEntropy
    rw [hhc]
    simp only [List.map_cons, List.map_nil, List.sum_cons, List.sum_nil,
      List.length_cons, List.length_nil]
    unfold entTerm
    push_cast
    have l1 : Real.logb 2 ((1 : ℝ) / 6) < 0 :=
      Real.logb_neg (by norm_num) (by norm_num) (by norm_num)
    have l2 : Real.logb 2 ((5 : ℝ) / 6) < 0 :=
      Real.logb_neg (by norm_num) (by norm_num) (by norm_num)
    nlinarith [l1, l2]
  have hmem0 : shannonEntropy [255, 0, 0, 0, 0, 0] ∈
      cellsOf (entropyMap [[255, 0, 0, 0, 0, 0, 0]]) := by
    rw [hcells, hn0]
    simp
  have hmem6 : shannonEntropy [0, 0, 0, 0, 0, 0] ∈
      cellsOf (entropyMap [[255, 0, 0, 0, 0, 0, 0]]) := by
    rw [hcells, hn6]
    simp
  have hne : shannonEntropy [255, 0, 0, 0, 0, 0] ≠ shannonEntropy [0, 0, 0, 0, 0, 0] := by
    rw [hH6]
    exact ne_of_gt hH0
  have hnc : ∃ x ∈ cellsOf (entropyMap [[255, 0, 0, 0, 0, 0, 0]]),
      ∃ y ∈ cellsOf (entropyMap [[255, 0, 0, 0, 0, 0, 0]]), x ≠ y :=
    ⟨shannonEntropy [255, 0, 0, 0, 0, 0], hmem0,
     shannonEntropy [0, 0, 0, 0, 0, 0], hmem6, hne⟩
  exact ⟨hnc, (c8_theorem [[255, 0, 0, 0, 0, 0, 0]] hnc).2.2⟩

end ScratchAssay

namespace ScratchAssay

/-- C10: `detect_file_type` leaves the byte source exactly as it found it
(in particular the read position is restored after header sniffing), and
it only ever answers with a recognized extension or `none`. -/
theorem c10_theorem (f : ByteFile) :
    (detect_file_type f).2 = f ∧
      ∀ s : String, (detect_file_type f).1 = some s → s ∈ knownExts := by
  unfold detect_file_type
  by_cases hk : splitExtLower f.name ∈ knownExts
  · simp [hk]
  · by_cases hr : f.hasRead
    · simp only [hk, if_false, hr, if_true]
      cases himg : imghdrWhat ((readBytes f 32).1) with
      | none => simp [readBytes, seekTo]
      | some t =>
          by_cases hj : t = "jpeg"
          · simp [hj, readBytes, seekTo, knownExts]
          · by_cases hp : t = "png"
            · simp [hj, hp, readBytes, seekTo, knownExts]
            · simp [hj, hp, readBytes, seekTo]
    · simp [hk, hr]

end ScratchAssay
